import Mathlib

/-!
Verification of the rate-governed API access layer of the scatalog
extension (src/utils/spotify-api.js) against its specification.

The embedding models provider responses as oracles: a pagination loop
consumes a list of `PageResp` values, one per HTTP request it would
issue, in order.  Stateful parts (token cache, response cache, request
queue) are modelled as explicit state passing; the cooperative event
loop of the host environment is modelled as a deterministic step
function over externally chosen events.
-/

namespace Scatalog

/-- Release snapshot as consumed by the search pipeline.  Deduplication
keys solely on the provider-assigned `id`; `title` stands for the rest
of the immutable payload. -/
structure Album where
  id : Nat
  title : Nat
deriving DecidableEq, Repr

/-- Outcome of one paginated search request: either the request threw
(`err`), or it returned `data.albums.items` together with
`data.albums.total` (`ok items total`).  A response without an `albums`
field behaves as `ok [] 0`, which is how the source's or-else defaults
read it. -/
inductive PageResp where
  | err : PageResp
  | ok : List Album → Nat → PageResp
deriving DecidableEq, Repr

/-- Page size of every pagination loop (the local `const limit = 50`). -/
def pageLimit : Nat := 50

/-- Embedding of `searchDirectlyByLabel` (spotify-api.js:705): walks the
provider responses in offset order, accumulating each page's items;
stops when a request throws (the catch-and-break), on an empty page, on
a short page, or when `offset + limit` is not below the reported total.
An exhausted oracle contributes no further items. -/
def searchDirectlyByLabel : List PageResp → Nat → List Album
  | [], _ => []
  | .err :: _, _ => []
  | .ok items total :: rest, offset =>
    if items.length = 0 then []
    else
      items ++ (if items.length = pageLimit ∧ offset + pageLimit < total
                then searchDirectlyByLabel rest (offset + pageLimit)
                else [])

/-- Embedding of `searchByLabelAndYearRange` (spotify-api.js:793): like
the direct loop but capped at offset 200, and continuing purely on
`items.length = limit` — the reported total is not consulted. -/
def searchByLabelAndYearRange : List PageResp → Nat → List Album
  | [], _ => []
  | .err :: _, _ => []
  | .ok items _total :: rest, offset =>
    if 200 ≤ offset then []
    else if items.length = 0 then []
    else
      items ++ (if items.length = pageLimit
                then searchByLabelAndYearRange rest (offset + pageLimit)
                else [])

/-- Worker of `deduplicateAlbums`: `seen` holds the ids already kept. -/
def dedupSeen : List Nat → List Album → List Album
  | _, [] => []
  | seen, a :: rest =>
    if a.id ∈ seen then dedupSeen seen rest
    else a :: dedupSeen (a.id :: seen) rest

/-- Embedding of `deduplicateAlbums` (spotify-api.js:871): keeps the
first occurrence of each id. -/
def deduplicateAlbums (albums : List Album) : List Album :=
  dedupSeen [] albums

/-- Embedding of `searchByLabelVariations` (spotify-api.js:739): one
direct-phase pagination per generated variation, concatenated.  The
outer list is the response oracle of each variation; a failing request
already degrades inside `searchDirectlyByLabel`, so the per-variation
catch contributes nothing further. -/
def searchByLabelVariations (variantPages : List (List PageResp)) : List Album :=
  (variantPages.map (fun pages => searchDirectlyByLabel pages 0)).flatten

/-- Embedding of `searchByLabelAndYear` (spotify-api.js:764): one capped
pagination per five-year chunk, concatenated; a failing chunk degrades
to its partial list inside `searchByLabelAndYearRange`. -/
def searchByLabelAndYear (chunkPages : List (List PageResp)) : List Album :=
  (chunkPages.map (fun pages => searchByLabelAndYearRange pages 0)).flatten

/-- Result envelope of `searchAllAlbumsByLabel`: the returned
`albums.items` and `albums.total`, plus whether the escalation branch
(variant and temporal phases) ran. -/
structure SearchResult where
  items : List Album
  total : Nat
  escalated : Bool
deriving DecidableEq, Repr

/-- Embedding of `searchAllAlbumsByLabel` (spotify-api.js:646): runs the
direct phase; when it produced at least 90 releases the variant and
temporal phases also run and the union is merged through
`deduplicateAlbums`; below the threshold the direct results are
returned as-is. -/
def searchAllAlbumsByLabel (directPages : List PageResp)
    (variantPages chunkPages : List (List PageResp)) : SearchResult :=
  let directResults := searchDirectlyByLabel directPages 0
  if 90 ≤ directResults.length then
    let variationResults := searchByLabelVariations variantPages
    let temporalResults := searchByLabelAndYear chunkPages
    let allAlbums :=
      deduplicateAlbums (directResults ++ variationResults ++ temporalResults)
    ⟨allAlbums, allAlbums.length, true⟩
  else
    ⟨directResults, directResults.length, false⟩

/-- Freshness window of every cache family: 24 hours in milliseconds. -/
def cacheDuration : Nat := 24 * 60 * 60 * 1000

/-- One entry of the in-memory response cache: the cached payload (kept
opaque) and the `Date.now()` at which it was stored. -/
structure CacheEntry where
  data : Nat
  timestamp : Nat
deriving DecidableEq, Repr

/-- Lookup in the response cache, modelling `Map.get`/`Map.has`. -/
def cacheGetEntry : List (String × CacheEntry) → String → Option CacheEntry
  | [], _ => none
  | (k, e) :: rest, key => if k = key then some e else cacheGetEntry rest key

/-- `Map.set`: replaces the value in place when the key is present,
appends otherwise. -/
def cacheSet : List (String × CacheEntry) → String → CacheEntry → List (String × CacheEntry)
  | [], key, e => [(key, e)]
  | (k, e0) :: rest, key, e =>
    if k = key then (key, e) :: rest else (k, e0) :: cacheSet rest key e

/-- `Map.delete`: removes the (unique) entry for the key. -/
def cacheDelete : List (String × CacheEntry) → String → List (String × CacheEntry)
  | [], _ => []
  | (k, e0) :: rest, key => if k = key then rest else (k, e0) :: cacheDelete rest key

/-- The composite cache key of `searchByLabel`:
`label:${labelName}:${limit}:${offset}`. -/
def cacheKey (labelName : String) (limit offset : Nat) : String :=
  "label:" ++ labelName ++ ":" ++ toString limit ++ ":" ++ toString offset

/-- Outcome of one `searchByLabel` call: the delivered data (`none`
when the call throws), the cache afterwards, and whether a provider
request was issued. -/
structure SearchByLabelOut where
  data : Option Nat
  cache : List (String × CacheEntry)
  fetched : Bool
deriving DecidableEq, Repr

/-- Embedding of `searchByLabel` (spotify-api.js:307) restricted to its
cache discipline: `now` is `Date.now()` at the lookup and `fetch` the
outcome `makeRequest` would produce (`none` when it rejects, in which
case the error is rethrown and nothing is cached).  A fresh hit is
served from the cache; a stale entry is deleted before the fetch; a
successful fetch is stored under the key with timestamp `now`. -/
def searchByLabel (cache : List (String × CacheEntry)) (labelName : String)
    (limit offset now : Nat) (fetch : Option Nat) : SearchByLabelOut :=
  let key := cacheKey labelName limit offset
  match cacheGetEntry cache key with
  | some cached =>
    if now - cached.timestamp < cacheDuration then
      ⟨some cached.data, cache, false⟩
    else
      match fetch with
      | none => ⟨none, cacheDelete cache key, true⟩
      | some d => ⟨some d, cacheSet (cacheDelete cache key) key ⟨d, now⟩, true⟩
  | none =>
    match fetch with
    | none => ⟨none, cache, true⟩
    | some d => ⟨some d, cacheSet cache key ⟨d, now⟩, true⟩

/-- Mutable fields of the `SpotifyAPI` object touched by token and
credential handling.  Credentials and tokens are opaque numbers; `none`
models a `null`/unset field. -/
structure ApiState where
  accessToken : Option Nat
  tokenExpiry : Option Nat
  clientId : Option Nat
  clientSecret : Option Nat
  cache : List (String × CacheEntry)
  requestQueue : List Nat
  isProcessingQueue : Bool
deriving DecidableEq, Repr

/-- Outcome of one `getAccessToken` call run to completion: delivered
token (`none` when the call throws), the state afterwards, and the
number of token-exchange HTTP requests issued. -/
structure TokenCallOut where
  token : Option Nat
  state : ApiState
  exchangeCalls : Nat
deriving DecidableEq, Repr

/-- The exchange path of `getAccessToken`: throw when credentials are
missing (no HTTP request), otherwise issue the token-endpoint request;
`exchange = none` models a non-ok or failed exchange (the call throws),
`some (tok, expiresIn)` the parsed response. -/
def getAccessTokenFetch (s : ApiState) (now : Nat)
    (exchange : Option (Nat × Nat)) : TokenCallOut :=
  if s.clientId = none ∨ s.clientSecret = none then ⟨none, s, 0⟩
  else
    match exchange with
    | none => ⟨none, s, 1⟩
    | some (tok, expiresIn) =>
      ⟨some tok,
       { s with accessToken := some tok,
                tokenExpiry := some (now + expiresIn * 1000 - 60000) }, 1⟩

/-- Embedding of `getAccessToken` (spotify-api.js:105) run with no
interleaving: a cached token still strictly before its recorded expiry
is returned without any exchange; otherwise the exchange path runs. -/
def getAccessToken (s : ApiState) (now : Nat)
    (exchange : Option (Nat × Nat)) : TokenCallOut :=
  match s.accessToken, s.tokenExpiry with
  | some tok, some expiry =>
    if now < expiry then ⟨some tok, s, 0⟩ else getAccessTokenFetch s now exchange
  | _, _ => getAccessTokenFetch s now exchange

/-- Embedding of the source method `initialize` (spotify-api.js:58,
named `initializeApi` here because of a name clash): reads the stored
credentials; when both are present it sets them on the state and runs
`getAccessToken`, reporting success; a missing credential or a thrown
`getAccessToken` is caught and reported as `false`.  Returns the
success flag, the state, and the number of exchange requests issued. -/
def initializeApi (s : ApiState) (storedCreds : Option (Nat × Nat)) (now : Nat)
    (exchange : Option (Nat × Nat)) : Bool × ApiState × Nat :=
  match storedCreds with
  | none => (false, s, 0)
  | some (cid, csecret) =>
    let s1 := { s with clientId := some cid, clientSecret := some csecret }
    let out := getAccessToken s1 now exchange
    match out.token with
    | some _ => (true, out.state, out.exchangeCalls)
    | none => (false, out.state, out.exchangeCalls)

/-- Embedding of the source method `reinitialize` (spotify-api.js:77,
named `reinitializeApi` here for symmetry with `initializeApi`):
unconditionally
clears token, expiry, response cache and request queue, resets the
processing flag, then runs `initialize` on the stored credentials. -/
def reinitializeApi (s : ApiState) (storedCreds : Option (Nat × Nat)) (now : Nat)
    (exchange : Option (Nat × Nat)) : Bool × ApiState × Nat :=
  let s1 := { s with accessToken := none, tokenExpiry := none,
                     cache := [], requestQueue := [], isProcessingQueue := false }
  initializeApi s1 storedCreds now exchange

/-- State of the token provider as seen by interleaved
`getAccessToken` activations: the cached token fields plus the number
of activations currently suspended at the exchange fetch. -/
structure TokFlight where
  accessToken : Option Nat
  tokenExpiry : Option Nat
  configured : Bool
  pendingExchanges : Nat
deriving DecidableEq, Repr

/-- Externally scheduled events of the cooperative token model: a new
`getAccessToken` call starting at time `now`, or the completion of one
suspended exchange request (`none`: that activation throws;
`some (tok, expiresIn)`: the parsed response). -/
inductive TokEv where
  | call : Nat → TokEv
  | done : Option (Nat × Nat) → Nat → TokEv
deriving DecidableEq, Repr

/-- Observable outputs of the cooperative token model: an activation
returned a token, threw, or issued a token-exchange HTTP request. -/
inductive TokOut where
  | ret : Nat → TokOut
  | threw : TokOut
  | exchangeStart : TokOut
deriving DecidableEq, Repr

/-- The cache-miss path of an interleaved `getAccessToken` activation:
throw when no credentials are configured, otherwise issue an exchange
request and suspend on it. -/
def tokMiss (s : TokFlight) : TokFlight × List TokOut :=
  if s.configured then
    ({ s with pendingExchanges := s.pendingExchanges + 1 }, [TokOut.exchangeStart])
  else (s, [TokOut.threw])

/-- One cooperative step of `getAccessToken` (spotify-api.js:105) under
interleaving: a `call` runs the synchronous prefix — serving a cached
valid token immediately or starting its own exchange; a `done` resumes
one suspended activation, which (on success) overwrites the shared
token fields and returns its token. -/
def tokStep (s : TokFlight) : TokEv → TokFlight × List TokOut
  | .call now =>
    match s.accessToken, s.tokenExpiry with
    | some tok, some expiry =>
      if now < expiry then (s, [TokOut.ret tok]) else tokMiss s
    | _, _ => tokMiss s
  | .done res now =>
    if s.pendingExchanges = 0 then (s, [])
    else
      match res with
      | some (tok, expiresIn) =>
        ({ s with pendingExchanges := s.pendingExchanges - 1,
                  accessToken := some tok,
                  tokenExpiry := some (now + expiresIn * 1000 - 60000) },
         [TokOut.ret tok])
      | none => ({ s with pendingExchanges := s.pendingExchanges - 1 }, [TokOut.threw])

/-- Run of the cooperative token model over a list of events,
concatenating the outputs. -/
def tokRun (s : TokFlight) : List TokEv → TokFlight × List TokOut
  | [] => (s, [])
  | e :: rest =>
    let s1 := tokStep s e
    let s2 := tokRun s1.1 rest
    (s2.1, s1.2 ++ s2.2)

/-- A page of `n` distinct releases with ids `lo, lo+1, …, lo+n-1`. -/
def pageOfIds (lo n : Nat) : List Album :=
  (List.range n).map (fun i => ⟨lo + i, 0⟩)

/-- Direct-phase oracle yielding exactly 90 releases over two pages. -/
def direct90 : List PageResp :=
  [.ok (pageOfIds 0 50) 200, .ok (pageOfIds 50 40) 200]

/-- Direct-phase oracle yielding exactly 89 releases over two pages. -/
def direct89 : List PageResp :=
  [.ok (pageOfIds 0 50) 200, .ok (pageOfIds 50 39) 200]

lemma dedupSeen_spec (l : List Album) : ∀ seen : List Nat,
    ((dedupSeen seen l).map Album.id).Nodup ∧
      ∀ a ∈ dedupSeen seen l, a.id ∉ seen := by
  induction l with
  | nil => intro seen; simp [dedupSeen]
  | cons a rest ih =>
    intro seen
    by_cases h : a.id ∈ seen
    · simp only [dedupSeen, if_pos h]
      exact ⟨(ih seen).1, fun b hb => (ih seen).2 b hb⟩
    · simp only [dedupSeen, if_neg h]
      refine ⟨?_, ?_⟩
      · rw [List.map_cons, List.nodup_cons]
        refine ⟨?_, (ih (a.id :: seen)).1⟩
        intro hmem
        rcases List.mem_map.1 hmem with ⟨b, hb, hid⟩
        exact (ih (a.id :: seen)).2 b hb (by simp [hid])
      · intro b hb
        rcases List.mem_cons.1 hb with rfl | hb'
        · exact h
        · intro hbs
          exact (ih (a.id :: seen)).2 b hb' (List.mem_cons_of_mem _ hbs)

lemma deduplicateAlbums_nodup (l : List Album) :
    ((deduplicateAlbums l).map Album.id).Nodup :=
  (dedupSeen_spec l []).1

/-- C1 counterexample: a small label whose single direct page carries
the same provider id twice.  The direct count (2) is below the
escalation threshold, so the direct results are returned as-is and the
final result set holds two releases with id 1 — the claimed
id-uniqueness fails on the small-label path. -/
theorem searchAll_smallPath_duplicate_ids :
    ¬ (((searchAllAlbumsByLabel [.ok [⟨1, 0⟩, ⟨1, 1⟩] 2] [] []).items.map
        Album.id).Nodup) := by
  decide

/-- C1 (amended): on the escalated path the merged results pass through
`deduplicateAlbums`, so no two releases of the final result share an
id; on the small-label path the direct results are returned as-is, so
the final result is id-duplicate-free exactly when the concatenated
direct-phase pages already were. -/
theorem searchAll_dedup_by_id (directPages : List PageResp)
    (variantPages chunkPages : List (List PageResp)) :
    ((searchAllAlbumsByLabel directPages variantPages chunkPages).escalated = true →
      (((searchAllAlbumsByLabel directPages variantPages chunkPages).items.map
          Album.id).Nodup)) ∧
    ((searchAllAlbumsByLabel directPages variantPages chunkPages).escalated = false →
      (searchAllAlbumsByLabel directPages variantPages chunkPages).items =
          searchDirectlyByLabel directPages 0 ∧
        (((searchDirectlyByLabel directPages 0).map Album.id).Nodup →
          (((searchAllAlbumsByLabel directPages variantPages chunkPages).items.map
              Album.id).Nodup))) := by
  by_cases h : 90 ≤ (searchDirectlyByLabel directPages 0).length
  · simp only [searchAllAlbumsByLabel]
    rw [if_pos h]
    exact ⟨fun _ => deduplicateAlbums_nodup _, fun hfalse => by simp at hfalse⟩
  · simp only [searchAllAlbumsByLabel]
    rw [if_neg h]
    exact ⟨fun htrue => by simp at htrue, fun _ => ⟨rfl, fun hn => hn⟩⟩

/-- Witness for `searchAll_dedup_by_id`: a concrete non-escalated
search whose direct pages are duplicate-free. -/
theorem searchAll_dedup_by_id_witness :
    (searchAllAlbumsByLabel [.ok [⟨1, 0⟩, ⟨2, 0⟩] 2] [] []).items =
        searchDirectlyByLabel [.ok [⟨1, 0⟩, ⟨2, 0⟩] 2] 0 ∧
      (((searchAllAlbumsByLabel [.ok [⟨1, 0⟩, ⟨2, 0⟩] 2] [] []).items.map
          Album.id).Nodup) := by
  have h := (searchAll_dedup_by_id [.ok [⟨1, 0⟩, ⟨2, 0⟩] 2] [] []).2 (by decide)
  exact ⟨h.1, h.2 (by decide)⟩

/-- C2: the variant and temporal phases run precisely when the direct
phase produced at least 90 releases, and a direct phase with zero
releases makes the whole search return the empty envelope immediately
without escalating. -/
theorem searchAll_escalation_trigger (directPages : List PageResp)
    (variantPages chunkPages : List (List PageResp)) :
    ((searchAllAlbumsByLabel directPages variantPages chunkPages).escalated = true ↔
      90 ≤ (searchDirectlyByLabel directPages 0).length) ∧
    (searchDirectlyByLabel directPages 0 = [] →
      searchAllAlbumsByLabel directPages variantPages chunkPages = ⟨[], 0, false⟩) := by
  by_cases h : 90 ≤ (searchDirectlyByLabel directPages 0).length
  · simp only [searchAllAlbumsByLabel]
    rw [if_pos h]
    refine ⟨⟨fun _ => h, fun _ => rfl⟩, fun hnil => ?_⟩
    rw [hnil] at h
    simp at h
  · simp only [searchAllAlbumsByLabel]
    rw [if_neg h]
    refine ⟨⟨fun hfalse => by simp at hfalse, fun hge => absurd hge h⟩, fun hnil => ?_⟩
    simp [hnil]

/-- Witness for `searchAll_escalation_trigger`: 90 direct releases
escalate, 89 do not, and an empty direct phase short-circuits. -/
theorem searchAll_escalation_trigger_witness :
    (searchAllAlbumsByLabel direct90 [] []).escalated = true ∧
    (searchAllAlbumsByLabel direct89 [] []).escalated = false ∧
    searchAllAlbumsByLabel [.err] [] [] = ⟨[], 0, false⟩ := by
  refine ⟨(searchAll_escalation_trigger direct90 [] []).1.mpr (by decide), ?_,
    (searchAll_escalation_trigger [.err] [] []).2 (by decide)⟩
  have h89 := (searchAll_escalation_trigger direct89 [] []).1
  by_cases hb : (searchAllAlbumsByLabel direct89 [] []).escalated = true
  · exact absurd (h89.mp hb) (by decide)
  · simpa using hb

/-- C6 counterexample: a year-range sub-query whose provider-reported
total (10) is below the page size while the first page still carries 50
items.  The year-range loop never consults the total, so it requests a
second page: pagination does not stop after the first page. -/
theorem yearRange_ignores_total :
    searchByLabelAndYearRange
        [.ok (pageOfIds 0 50) 10, .ok (pageOfIds 50 50) 10] 0 ≠ pageOfIds 0 50 ∧
      (searchByLabelAndYearRange
        [.ok (pageOfIds 0 50) 10, .ok (pageOfIds 50 50) 10] 0).length = 100 ∧
      10 < pageLimit := by
  decide

/-- C6 (amended): the direct-phase loop stops after one page whenever
the reported total is below the page size, regardless of how many items
that page carried; the year-range loop ignores the reported total and
stops after the first page exactly when that page carries fewer than 50
items — as any total-consistent response with total below the page size
does. -/
theorem pagination_stops_on_small_total (items : List Album) (total offset : Nat)
    (rest : List PageResp) :
    (total < pageLimit →
      searchDirectlyByLabel (.ok items total :: rest) offset = items) ∧
    (items.length < pageLimit →
      searchByLabelAndYearRange (.ok items total :: rest) 0 = items) := by
  constructor
  · intro h
    by_cases h0 : items.length = 0
    · simp [searchDirectlyByLabel, h0, List.length_eq_zero.mp h0]
    · have hcont : ¬ (items.length = pageLimit ∧ offset + pageLimit < total) := by
        rintro ⟨-, hlt⟩
        omega
      simp [searchDirectlyByLabel, h0, hcont]
  · intro h
    by_cases h0 : items.length = 0
    · simp [searchByLabelAndYearRange, h0, List.length_eq_zero.mp h0]
    · have hne : ¬ items.length = pageLimit := by omega
      simp [searchByLabelAndYearRange, h0, hne]

/-- Witness for `pagination_stops_on_small_total`: a full direct page
with a smaller reported total stops anyway; a short year-range page
stops. -/
theorem pagination_stops_on_small_total_witness :
    searchDirectlyByLabel [.ok (pageOfIds 0 50) 40, .err] 0 = pageOfIds 0 50 ∧
    searchByLabelAndYearRange [.ok (pageOfIds 0 10) 5, .err] 0 = pageOfIds 0 10 := by
  exact ⟨(pagination_stops_on_small_total (pageOfIds 0 50) 40 0 [.err]).1 (by decide),
    (pagination_stops_on_small_total (pageOfIds 0 10) 5 0 [.err]).2 (by decide)⟩

lemma tokRun_cached (t e now : Nat) (s : TokFlight) (hs : s.accessToken = some t)
    (he : s.tokenExpiry = some e) (hlt : now < e) :
    ∀ k, tokRun s (List.replicate k (.call now)) = (s, List.replicate k (TokOut.ret t)) := by
  intro k
  induction k with
  | zero => simp [tokRun]
  | succ n ih =>
    have hstep : tokStep s (.call now) = (s, [TokOut.ret t]) := by
      simp [tokStep, hs, he, hlt]
    simp [List.replicate_succ, tokRun, hstep, ih]

lemma tokRun_fanout (now : Nat) : ∀ (k : Nat) (s : TokFlight),
    s.accessToken = none → s.configured = true →
    (tokRun s (List.replicate k (.call now))).2 =
        List.replicate k TokOut.exchangeStart ∧
      (tokRun s (List.replicate k (.call now))).1.pendingExchanges =
        s.pendingExchanges + k := by
  intro k
  induction k with
  | zero => intro s _ _; simp [tokRun]
  | succ n ih =>
    intro s h1 h2
    have hstep : tokStep s (.call now) =
        ({ s with pendingExchanges := s.pendingExchanges + 1 },
         [TokOut.exchangeStart]) := by
      simp [tokStep, h1, tokMiss, h2]
    have ih2 := ih { s with pendingExchanges := s.pendingExchanges + 1 }
      (by simpa using h1) (by simpa using h2)
    constructor
    · simp [List.replicate_succ, tokRun, hstep, ih2.1]
    · simp only [List.replicate_succ, tokRun, hstep]
      rw [ih2.2]
      simp
      omega

/-- C5 counterexample: two callers that both invoke `getAccessToken`
before the first exchange resolves each trigger their own
token-exchange request — two exchange calls, not the claimed one. -/
theorem token_exchange_not_single_flight :
    (tokRun ⟨none, none, true, 0⟩ [.call 0, .call 0]).2 =
        [TokOut.exchangeStart, TokOut.exchangeStart] ∧
      ¬ ((tokRun ⟨none, none, true, 0⟩ [.call 0, .call 0]).2.count
          TokOut.exchangeStart = 1) := by
  decide

/-- C5 (amended): while a valid token is cached, every `getAccessToken`
call returns that same cached token with no exchange request and no
state change; but the exchange is not single-flight — from a token-less
configured state, k callers that all start before any exchange resolves
issue k separate token-exchange requests, one each. -/
theorem token_cache_but_no_single_flight (s : TokFlight) (t e now k : Nat) :
    (s.accessToken = some t → s.tokenExpiry = some e → now < e →
      tokRun s (List.replicate k (.call now)) =
        (s, List.replicate k (TokOut.ret t))) ∧
    (s.accessToken = none → s.configured = true →
      (tokRun s (List.replicate k (.call now))).2 =
          List.replicate k TokOut.exchangeStart ∧
        (tokRun s (List.replicate k (.call now))).1.pendingExchanges =
          s.pendingExchanges + k) :=
  ⟨fun h1 h2 h3 => tokRun_cached t e now s h1 h2 h3 k,
   fun h1 h2 => tokRun_fanout now k s h1 h2⟩

/-- Witness for `token_cache_but_no_single_flight`: three cached-hit
calls return the cached token 5 each, and two pre-resolution callers
start two exchanges. -/
theorem token_cache_but_no_single_flight_witness :
    tokRun ⟨some 5, some 100, true, 0⟩ (List.replicate 3 (.call 10)) =
        (⟨some 5, some 100, true, 0⟩, List.replicate 3 (TokOut.ret 5)) ∧
      (tokRun ⟨none, none, true, 0⟩ (List.replicate 2 (.call 0))).2 =
        List.replicate 2 TokOut.exchangeStart := by
  exact ⟨(token_cache_but_no_single_flight ⟨some 5, some 100, true, 0⟩ 5 100 10 3).1
      rfl rfl (by decide),
    ((token_cache_but_no_single_flight ⟨none, none, true, 0⟩ 0 0 0 2).2
      rfl rfl).1⟩

lemma getAccessTokenFetch_calls_le_one (s : ApiState) (now : Nat)
    (exchange : Option (Nat × Nat)) :
    (getAccessTokenFetch s now exchange).exchangeCalls ≤ 1 := by
  unfold getAccessTokenFetch
  split
  · simp
  · rcases exchange with _ | ⟨t, e⟩ <;> simp

lemma getAccessToken_calls_le_one (s : ApiState) (now : Nat)
    (exchange : Option (Nat × Nat)) :
    (getAccessToken s now exchange).exchangeCalls ≤ 1 := by
  unfold getAccessToken
  rcases hA : s.accessToken with _ | t <;> rcases hE : s.tokenExpiry with _ | e <;>
    simp only [hA, hE]
  · exact getAccessTokenFetch_calls_le_one s now exchange
  · exact getAccessTokenFetch_calls_le_one s now exchange
  · exact getAccessTokenFetch_calls_le_one s now exchange
  · split
    · simp
    · exact getAccessTokenFetch_calls_le_one s now exchange

lemma getAccessTokenFetch_token_src (s : ApiState) (now : Nat)
    (exchange : Option (Nat × Nat)) (tok : Nat) :
    (getAccessTokenFetch s now exchange).token = some tok →
      ∃ e2, exchange = some (tok, e2) := by
  unfold getAccessTokenFetch
  split
  · simp
  · rcases exchange with _ | ⟨t2, e2⟩
    · simp
    · intro h
      simp at h
      exact ⟨e2, by rw [h]⟩

lemma getAccessToken_token_src (s : ApiState) (now : Nat)
    (exchange : Option (Nat × Nat)) (tok : Nat) :
    (getAccessToken s now exchange).token = some tok →
      s.accessToken = some tok ∨ ∃ e2, exchange = some (tok, e2) := by
  unfold getAccessToken
  rcases hA : s.accessToken with _ | t <;> rcases hE : s.tokenExpiry with _ | e <;>
    simp only [hA, hE]
  · exact fun h => Or.inr (getAccessTokenFetch_token_src s now exchange tok h)
  · exact fun h => Or.inr (getAccessTokenFetch_token_src s now exchange tok h)
  · exact fun h => Or.inr (getAccessTokenFetch_token_src s now exchange tok h)
  · split
    · exact fun h => Or.inl h
    · exact fun h => Or.inr (getAccessTokenFetch_token_src s now exchange tok h)

lemma getAccessTokenFetch_state_token (s : ApiState) (now : Nat)
    (exchange : Option (Nat × Nat)) :
    (getAccessTokenFetch s now exchange).state.accessToken = s.accessToken ∨
      ∃ p, exchange = some p ∧
        (getAccessTokenFetch s now exchange).state.accessToken = some p.1 := by
  unfold getAccessTokenFetch
  split
  · left; rfl
  · rcases exchange with _ | ⟨t2, e2⟩
    · left; rfl
    · right; exact ⟨(t2, e2), rfl, rfl⟩

lemma getAccessToken_state_token (s : ApiState) (now : Nat)
    (exchange : Option (Nat × Nat)) :
    (getAccessToken s now exchange).state.accessToken = s.accessToken ∨
      ∃ p, exchange = some p ∧
        (getAccessToken s now exchange).state.accessToken = some p.1 := by
  unfold getAccessToken
  rcases hA : s.accessToken with _ | t <;> rcases hE : s.tokenExpiry with _ | e <;>
    simp only [hA, hE]
  · rcases getAccessTokenFetch_state_token s now exchange with h | h
    · exact Or.inl (h.trans hA)
    · exact Or.inr h
  · rcases getAccessTokenFetch_state_token s now exchange with h | h
    · exact Or.inl (h.trans hA)
    · exact Or.inr h
  · rcases getAccessTokenFetch_state_token s now exchange with h | h
    · exact Or.inl (h.trans hA)
    · exact Or.inr h
  · split
    · exact Or.inl hA
    · rcases getAccessTokenFetch_state_token s now exchange with h | h
      · exact Or.inl (h.trans hA)
      · exact Or.inr h

lemma initializeApi_state (s : ApiState) (cid cs now : Nat)
    (exchange : Option (Nat × Nat)) :
    (initializeApi s (some (cid, cs)) now exchange).2.1 =
      (getAccessToken { s with clientId := some cid, clientSecret := some cs }
        now exchange).state := by
  unfold initializeApi
  rcases ht : (getAccessToken { s with clientId := some cid, clientSecret := some cs }
      now exchange).token with _ | t <;> simp [ht]

lemma reinitializeApi_state_token (s : ApiState) (storedCreds : Option (Nat × Nat))
    (now : Nat) (exchange : Option (Nat × Nat)) :
    (reinitializeApi s storedCreds now exchange).2.1.accessToken = none ∨
      ∃ p, exchange = some p ∧
        (reinitializeApi s storedCreds now exchange).2.1.accessToken = some p.1 := by
  simp only [reinitializeApi]
  rcases storedCreds with _ | ⟨cid, cs⟩
  · left; rfl
  · rw [initializeApi_state]
    rcases getAccessToken_state_token _ now exchange with h | ⟨p, hp, h⟩
    · left
      rw [h]
    · right
      exact ⟨p, hp, h⟩

/-- An `ApiState` holding a pre-reinitialization token 7 together with
unrelated cache and queue contents. -/
def preReinitState : ApiState :=
  ⟨some 7, some 1000000, some 1, some 2, [("k", ⟨5, 0⟩)], [4], true⟩

/-- C7 counterexample: with stored credentials and a successful
exchange, `reinitializeApi`'s own `initializeApi` already refills the
token cache, so the very next `getAccessToken` performs zero
token-exchange calls — not exactly one.  The token it returns is 42,
the post-clear one, never the pre-reinit token 7. -/
theorem reinit_then_get_zero_exchanges :
    (getAccessToken (reinitializeApi preReinitState (some (1, 2)) 100
        (some (42, 3600))).2.1 200 (some (43, 3600))).exchangeCalls = 0 ∧
      ¬ ((getAccessToken (reinitializeApi preReinitState (some (1, 2)) 100
          (some (42, 3600))).2.1 200 (some (43, 3600))).exchangeCalls = 1) ∧
      (getAccessToken (reinitializeApi preReinitState (some (1, 2)) 100
          (some (42, 3600))).2.1 200 (some (43, 3600))).token = some 42 := by
  decide

/-- C7 (amended): `reinitializeApi` unconditionally clears the cached
token and expiry, so the state it leaves holds either no token or the
token of its own post-clear exchange; a subsequent `getAccessToken`
performs at most one new exchange call — not always exactly one, as
the counterexample's zero-call cache hit on the reinitialize-time
token shows — and any token it returns stems from the
reinitialize-time exchange or from its own fresh exchange, never from
before the reinitialize. -/
theorem reinit_never_reuses_old_token (s : ApiState)
    (storedCreds : Option (Nat × Nat)) (now now2 : Nat)
    (exchange exchange2 : Option (Nat × Nat)) :
    ((reinitializeApi s storedCreds now exchange).2.1.accessToken = none ∨
      ∃ p, exchange = some p ∧
        (reinitializeApi s storedCreds now exchange).2.1.accessToken = some p.1) ∧
    (getAccessToken (reinitializeApi s storedCreds now exchange).2.1 now2
        exchange2).exchangeCalls ≤ 1 ∧
    (∀ tok,
      (getAccessToken (reinitializeApi s storedCreds now exchange).2.1 now2
          exchange2).token = some tok →
      (∃ e2, exchange = some (tok, e2)) ∨ ∃ e2, exchange2 = some (tok, e2)) := by
  refine ⟨reinitializeApi_state_token s storedCreds now exchange,
    getAccessToken_calls_le_one _ now2 exchange2, ?_⟩
  intro tok htok
  rcases getAccessToken_token_src _ now2 exchange2 tok htok with h | ⟨e2, h⟩
  · rcases reinitializeApi_state_token s storedCreds now exchange with h0 | ⟨p, hp, h0⟩
    · rw [h0] at h
      exact Option.noConfusion h
    · have hpt : p.1 = tok := Option.some.inj (h0.symm.trans h)
      exact Or.inl ⟨p.2, by rw [hp, ← hpt]⟩
  · exact Or.inr ⟨e2, h⟩

/-- Witness for `reinit_never_reuses_old_token`: after the concrete
reinitialization of `preReinitState` the returned token 42 is the one
of the reinitialize-time exchange. -/
theorem reinit_never_reuses_old_token_witness :
    (∃ e2, (some ((42 : Nat), (3600 : Nat)) : Option (Nat × Nat)) = some (42, e2)) ∨
      ∃ e2, (some ((43 : Nat), (3600 : Nat)) : Option (Nat × Nat)) = some (42, e2) := by
  exact (reinit_never_reuses_old_token preReinitState (some (1, 2)) 100 200
    (some (42, 3600)) (some (43, 3600))).2.2 42 (by decide)

lemma cacheGetEntry_set_self (c : List (String × CacheEntry)) (key : String)
    (e : CacheEntry) : cacheGetEntry (cacheSet c key e) key = some e := by
  induction c with
  | nil => simp [cacheSet, cacheGetEntry]
  | cons kv rest ih =>
    rcases kv with ⟨k, e0⟩
    by_cases h : k = key
    · simp [cacheSet, cacheGetEntry, h]
    · simp [cacheSet, cacheGetEntry, h, ih]

lemma searchByLabel_fresh_hit (c : List (String × CacheEntry)) (labelName : String)
    (limit offset now2 : Nat) (f : Option Nat) (e : CacheEntry)
    (he : cacheGetEntry c (cacheKey labelName limit offset) = some e)
    (hf : now2 - e.timestamp < cacheDuration) :
    searchByLabel c labelName limit offset now2 f = ⟨some e.data, c, false⟩ := by
  unfold searchByLabel
  simp [he, hf]

lemma searchByLabel_stores (c : List (String × CacheEntry)) (labelName : String)
    (limit offset now d : Nat) :
    (searchByLabel c labelName limit offset now (some d)).fetched = true →
      cacheGetEntry (searchByLabel c labelName limit offset now (some d)).cache
          (cacheKey labelName limit offset) = some ⟨d, now⟩ ∧
        (searchByLabel c labelName limit offset now (some d)).data = some d := by
  unfold searchByLabel
  rcases hc : cacheGetEntry c (cacheKey labelName limit offset) with _ | cached
  · intro _
    simp [hc, cacheGetEntry_set_self]
  · by_cases hfr : now - cached.timestamp < cacheDuration
    · intro h
      simp [hc, hfr] at h
    · intro _
      simp [hc, hfr, cacheGetEntry_set_self]

/-- C8: a `searchByLabel` call that actually fetched stores the
response under its key, and a second call for the same key while
`now2 - now` is strictly below the 24-hour window is served from the
cache: same value, no provider request, cache untouched.  Once `now2`
minus the stored timestamp is no longer strictly below the window, the
entry — still physically present up to that read — is treated as
absent: the read issues a fresh provider request and replaces the stale
entry. -/
theorem cache_roundtrip_and_freshness (c : List (String × CacheEntry))
    (labelName : String) (limit offset now now2 d d2 : Nat) :
    ((searchByLabel c labelName limit offset now (some d)).fetched = true →
      now2 - now < cacheDuration →
      searchByLabel (searchByLabel c labelName limit offset now (some d)).cache
          labelName limit offset now2 (some d2) =
        ⟨some d, (searchByLabel c labelName limit offset now (some d)).cache,
         false⟩) ∧
    (∀ e, cacheGetEntry c (cacheKey labelName limit offset) = some e →
      ¬ (now2 - e.timestamp < cacheDuration) →
      (searchByLabel c labelName limit offset now2 (some d2)).fetched = true ∧
        cacheGetEntry (searchByLabel c labelName limit offset now2 (some d2)).cache
          (cacheKey labelName limit offset) = some ⟨d2, now2⟩) := by
  constructor
  · intro hfetched hfr2
    have hs := searchByLabel_stores c labelName limit offset now d hfetched
    exact searchByLabel_fresh_hit _ labelName limit offset now2 (some d2)
      ⟨d, now⟩ hs.1 (by simpa using hfr2)
  · intro e he hstale
    constructor
    · unfold searchByLabel
      simp [he, hstale]
    · unfold searchByLabel
      simp [he, hstale, cacheGetEntry_set_self]

/-- Witness for `cache_roundtrip_and_freshness`: a concrete round trip
through an empty cache and a concrete stale entry evicted on read. -/
theorem cache_roundtrip_and_freshness_witness :
    searchByLabel (searchByLabel [] "l" 50 0 0 (some 7)).cache "l" 50 0 5 (some 9) =
        ⟨some 7, (searchByLabel [] "l" 50 0 0 (some 7)).cache, false⟩ ∧
      ((searchByLabel [(cacheKey "l" 50 0, ⟨7, 0⟩)] "l" 50 0 cacheDuration
          (some 9)).fetched = true ∧
        cacheGetEntry (searchByLabel [(cacheKey "l" 50 0, ⟨7, 0⟩)] "l" 50 0
            cacheDuration (some 9)).cache (cacheKey "l" 50 0) =
          some ⟨9, cacheDuration⟩) := by
  exact ⟨(cache_roundtrip_and_freshness [] "l" 50 0 0 5 7 9).1 (by decide) (by decide),
    (cache_roundtrip_and_freshness [(cacheKey "l" 50 0, ⟨7, 0⟩)] "l" 50 0 0
      cacheDuration 7 9).2 ⟨7, 0⟩ (by decide) (by decide)⟩

/-- C10: a page-request failure never escapes the direct phase: a
failure on the very first page yields the empty list — and then
`searchAllAlbumsByLabel` returns the same empty envelope as for a
confirmed-empty label — while a failure right after a successful page
returns exactly the albums accumulated so far. -/
theorem direct_search_absorbs_errors (rest : List PageResp) (items : List Album)
    (total offset : Nat) :
    searchDirectlyByLabel (.err :: rest) offset = [] ∧
    searchDirectlyByLabel (.ok items total :: .err :: rest) offset = items ∧
    (∀ variantPages chunkPages,
      searchAllAlbumsByLabel (.err :: rest) variantPages chunkPages = ⟨[], 0, false⟩) := by
  refine ⟨rfl, ?_, ?_⟩
  · simp only [searchDirectlyByLabel, ite_self, List.append_nil]
    split
    · next h0 => exact (List.length_eq_zero.mp h0).symm
    · rfl
  · intro variantPages chunkPages
    simp [searchAllAlbumsByLabel, searchDirectlyByLabel]

/-- Minimum spacing the scheduler enforces between provider requests
(`this.minRequestInterval = 100` milliseconds). -/
def minRequestInterval : Nat := 100

/-- One queued request as the timed drain loop sees it: how long the
token lookup takes and whether it succeeds (a failed lookup rejects the
item with no provider call), how long the provider fetch takes and
whether it settles with a response (`responded = false` models a
network-level rejection, which skips the `lastRequestTime` update), and
the time spent in the awaits after the fetch before the loop re-checks
the queue. -/
structure QItem where
  tokenDelay : Nat
  tokenOk : Bool
  fetchDelay : Nat
  responded : Bool
  postDelay : Nat
deriving DecidableEq, Repr

/-- Timed embedding of the drain loop of `processQueue`
(spotify-api.js:254-302) over a fixed queue, carrying the current time
and the recorded `lastRequestTime`.  Per item: sleep
`minRequestInterval - (now - lastRequestTime)` when the gap is still
too small, await the token, then issue the fetch;
`lastRequestTime := Date.now()` runs right after the fetch settles with
a response (source line 280 precedes the ok-check) but not when the
fetch itself rejects.  The output holds one entry per issued provider
call: issue time, the `lastRequestTime` in force at that instant, and
whether the fetch settled with a response. -/
def runQueue : Nat → Nat → List QItem → List (Nat × Nat × Bool)
  | _, _, [] => []
  | t, lrt, it :: rest =>
    let tS := if t - lrt < minRequestInterval
              then t + (minRequestInterval - (t - lrt)) else t
    let tTok := tS + it.tokenDelay
    if it.tokenOk then
      let tIssue := tTok
      let tSettle := tIssue + it.fetchDelay
      (tIssue, lrt, it.responded) ::
        runQueue (tSettle + it.postDelay)
          (if it.responded then tSettle else lrt) rest
    else
      runQueue tTok lrt rest

lemma runQueue_spec (items : List QItem) : ∀ (t lrt : Nat), lrt ≤ t →
    (∀ e ∈ runQueue t lrt items, e.2.1 + minRequestInterval ≤ e.1) ∧
    (∀ e ∈ (runQueue t lrt items).head?, e.2.1 = lrt) ∧
    List.Chain' (fun a b => a.2.2 = true → a.1 + minRequestInterval ≤ b.1)
      (runQueue t lrt items) := by
  induction items with
  | nil =>
    intro t lrt _
    exact ⟨by simp [runQueue], by simp [runQueue], by simp [runQueue]⟩
  | cons it rest ih =>
    intro t lrt hle
    simp only [runQueue]
    set tS := (if t - lrt < minRequestInterval
               then t + (minRequestInterval - (t - lrt)) else t) with htS
    have h1 : lrt + minRequestInterval ≤ tS := by rw [htS]; split <;> omega
    have h2 : t ≤ tS := by rw [htS]; split <;> omega
    by_cases htok : it.tokenOk = true
    · rw [if_pos htok]
      set lrt2 := (if it.responded then tS + it.tokenDelay + it.fetchDelay else lrt)
        with hlrt2
      have hle2 : lrt2 ≤ tS + it.tokenDelay + it.fetchDelay + it.postDelay := by
        rw [hlrt2]; split <;> omega
      have ihs := ih (tS + it.tokenDelay + it.fetchDelay + it.postDelay) lrt2 hle2
      refine ⟨?_, ?_, ?_⟩
      · intro e he
        rcases List.mem_cons.1 he with rfl | he2
        · simp only []
          omega
        · exact ihs.1 e he2
      · intro e he
        simp only [List.head?_cons, Option.mem_def, Option.some.injEq] at he
        simp [← he]
      · rw [List.chain'_cons']
        refine ⟨?_, ihs.2.2⟩
        intro b hb hresp
        have hb1 := ihs.1 b (List.mem_of_mem_head? hb)
        have hb2 := ihs.2.1 b hb
        rw [hlrt2, if_pos hresp] at hb2
        simp only []
        omega
    · rw [if_neg htok]
      exact ih (tS + it.tokenDelay) lrt (by omega)

/-- C3 counterexample: the first item's fetch rejects at the network
level, so `lastRequestTime` keeps its old value 0 and the drain loop
issues the second provider call 1 ms after the first — two consecutive
provider calls far closer together than `minRequestInterval`. -/
theorem scheduler_spacing_violated_after_rejection :
    runQueue 100 0 [⟨0, true, 1, false, 0⟩, ⟨0, true, 0, true, 0⟩] =
        [(100, 0, false), (101, 0, true)] ∧
      ¬ List.Chain' (fun a b => a.1 + minRequestInterval ≤ b.1)
        (runQueue 100 0 [⟨0, true, 1, false, 0⟩, ⟨0, true, 0, true, 0⟩]) := by
  have h : runQueue 100 0 [⟨0, true, 1, false, 0⟩, ⟨0, true, 0, true, 0⟩] =
      [(100, 0, false), (101, 0, true)] := by decide
  refine ⟨h, ?_⟩
  rw [h]
  intro hchain
  have h2 := (List.chain'_cons.1 hchain).1
  norm_num [minRequestInterval] at h2

/-- C3 (amended): at the instant each provider call is issued, the gap
to the recorded `lastRequestTime` is at least `minRequestInterval`, and
two consecutive issued calls are at least `minRequestInterval` apart
whenever the earlier fetch settled with a response; after a fetch that
rejects at the network level `lastRequestTime` is not updated, and the
next call may be issued sooner than `minRequestInterval` after the
rejected one. -/
theorem scheduler_spacing (items : List QItem) (t lrt : Nat) (hle : lrt ≤ t) :
    (∀ e ∈ runQueue t lrt items, e.2.1 + minRequestInterval ≤ e.1) ∧
    List.Chain' (fun a b => a.2.2 = true → a.1 + minRequestInterval ≤ b.1)
      (runQueue t lrt items) :=
  ⟨(runQueue_spec items t lrt hle).1, (runQueue_spec items t lrt hle).2.2⟩

/-- Witness for `scheduler_spacing` on a concrete two-item queue whose
first fetch settles with a response. -/
theorem scheduler_spacing_witness :
    (∀ e ∈ runQueue 0 0 [⟨0, true, 5, true, 0⟩, ⟨0, true, 0, true, 0⟩],
        e.2.1 + minRequestInterval ≤ e.1) ∧
    List.Chain' (fun a b => a.2.2 = true → a.1 + minRequestInterval ≤ b.1)
      (runQueue 0 0 [⟨0, true, 5, true, 0⟩, ⟨0, true, 0, true, 0⟩]) :=
  scheduler_spacing [⟨0, true, 5, true, 0⟩, ⟨0, true, 0, true, 0⟩] 0 0 (Nat.le_refl 0)

/-- What a live `processQueue` activation is currently awaiting: the
pacing sleep (before it shifts the head item), the token lookup for the
shifted item, the provider fetch for it, or the post-fetch awaits
(telemetry, body parsing, or the catch path) before the loop re-checks
the queue. -/
inductive Phase where
  | pacing : Phase
  | tokWait : Nat → Phase
  | fetchWait : Nat → Phase
  | post : Nat → Phase
deriving DecidableEq, Repr

/-- Scheduler-relevant state of the `SpotifyAPI` object: the pending
`requestQueue` (requests named by number), the `isProcessingQueue`
flag, and the live `processQueue` activations with the phase each is
suspended at.  `makeRequest` spawns a new activation whenever the flag
is down, so that single-activation operation is a provable consequence
of the flag discipline, not an assumption. -/
structure Sched where
  queue : List Nat
  flag : Bool
  tasks : List Phase
deriving DecidableEq, Repr

/-- Externally scheduled events of the cooperative model.  `enq r` is a
`makeRequest(r)`: push onto the queue plus a synchronous
`processQueue()` call.  The others resume the activation at index `i`
from its suspension: the pacing sleep elapses (`wake`, which then
shifts the head item), the token lookup resolves (`tokOk`) or throws
(`tokFail`, which rejects the item's promise without any provider
call), the provider fetch settles (`fetchDone`), or the post-fetch
awaits finish and the loop re-checks the queue (`next`).  `reinit` is
the synchronous part of `reinitialize`: it empties the queue and
resets the flag but cannot terminate a suspended activation.  An event
aimed at an activation not suspended in the matching phase changes
nothing. -/
inductive SEv where
  | enq : Nat → SEv
  | wake : Nat → SEv
  | tokOk : Nat → SEv
  | tokFail : Nat → SEv
  | fetchDone : Nat → SEv
  | next : Nat → SEv
  | reinit : SEv
deriving DecidableEq, Repr

/-- Observable outputs: a request was pushed, shifted off the queue,
issued as a provider HTTP call, rejected before any provider call
(token failure), or settled after its fetch completed (the resolve or
reject of its `makeRequest` promise). -/
inductive SOut where
  | enqueued : Nat → SOut
  | dequeued : Nat → SOut
  | issued : Nat → SOut
  | rejected : Nat → SOut
  | settled : Nat → SOut
deriving DecidableEq, Repr

/-- One cooperative step of the scheduler (spotify-api.js:142-147 and
254-302).  A `wake` that finds the queue empty models
`requestQueue.shift()` yielding `undefined`: destructuring it throws,
the activation dies by exception and the flag reset at the loop exit is
never reached — possible only once `reinit` has allowed a second
activation to steal the queue. -/
def sStep (s : Sched) : SEv → Sched × List SOut
  | .enq r =>
    if s.flag then
      ({ s with queue := s.queue ++ [r] }, [SOut.enqueued r])
    else
      ({ queue := s.queue ++ [r], flag := true, tasks := s.tasks ++ [Phase.pacing] },
       [SOut.enqueued r])
  | .wake i =>
    match s.tasks[i]? with
    | some Phase.pacing =>
      match s.queue with
      | r :: restQ =>
        ({ s with queue := restQ, tasks := s.tasks.set i (Phase.tokWait r) },
         [SOut.dequeued r])
      | [] => ({ s with tasks := s.tasks.eraseIdx i }, [])
    | _ => (s, [])
  | .tokOk i =>
    match s.tasks[i]? with
    | some (Phase.tokWait r) =>
      ({ s with tasks := s.tasks.set i (Phase.fetchWait r) }, [SOut.issued r])
    | _ => (s, [])
  | .tokFail i =>
    match s.tasks[i]? with
    | some (Phase.tokWait r) =>
      ((match s.queue with
        | [] => { s with tasks := s.tasks.eraseIdx i, flag := false }
        | _ :: _ => { s with tasks := s.tasks.set i Phase.pacing }),
       [SOut.rejected r])
    | _ => (s, [])
  | .fetchDone i =>
    match s.tasks[i]? with
    | some (Phase.fetchWait r) =>
      ({ s with tasks := s.tasks.set i (Phase.post r) }, [SOut.settled r])
    | _ => (s, [])
  | .next i =>
    match s.tasks[i]? with
    | some (Phase.post r) =>
      ((match s.queue with
        | [] => { s with tasks := s.tasks.eraseIdx i, flag := false }
        | _ :: _ => { s with tasks := s.tasks.set i Phase.pacing }),
       [])
    | _ => (s, [])
  | .reinit => ({ s with queue := [], flag := false }, [])

/-- Run of the scheduler model over a list of events, concatenating
the outputs. -/
def sRun (s : Sched) : List SEv → Sched × List SOut
  | [] => (s, [])
  | e :: rest =>
    let s1 := sStep s e
    let s2 := sRun s1.1 rest
    (s2.1, s1.2 ++ s2.2)

/-- The freshly constructed `SpotifyAPI`: empty queue, flag down, no
drain activation. -/
def sInit : Sched := ⟨[], false, []⟩

/-- Requests of the `enqueued` outputs, in order. -/
def enqSeq (tr : List SOut) : List Nat :=
  tr.filterMap fun o => match o with | .enqueued r => some r | _ => none

/-- Requests of the `dequeued` outputs, in order. -/
def deqSeq (tr : List SOut) : List Nat :=
  tr.filterMap fun o => match o with | .dequeued r => some r | _ => none

/-- Requests of the `issued` outputs (provider HTTP calls), in order. -/
def issueSeq (tr : List SOut) : List Nat :=
  tr.filterMap fun o => match o with | .issued r => some r | _ => none

/-- Requests of the `settled` outputs (fetch completions), in order. -/
def settleSeq (tr : List SOut) : List Nat :=
  tr.filterMap fun o => match o with | .settled r => some r | _ => none

/-- Requests held by activations suspended at the token lookup. -/
def tokHeld (tasks : List Phase) : List Nat :=
  tasks.filterMap fun p => match p with | Phase.tokWait r => some r | _ => none

/-- Number of provider calls currently in flight: activations suspended
at the fetch. -/
def fetchCount (tasks : List Phase) : Nat :=
  (tasks.filterMap fun p => match p with | Phase.fetchWait r => some r | _ => none).length

/-- All requests held by live activations, whatever the phase. -/
def taskReqs (tasks : List Phase) : List Nat :=
  tasks.filterMap fun p => match p with
    | Phase.pacing => none
    | Phase.tokWait r => some r
    | Phase.fetchWait r => some r
    | Phase.post r => some r

@[simp] lemma enqSeq_append (a b : List SOut) :
    enqSeq (a ++ b) = enqSeq a ++ enqSeq b := List.filterMap_append ..

@[simp] lemma deqSeq_append (a b : List SOut) :
    deqSeq (a ++ b) = deqSeq a ++ deqSeq b := List.filterMap_append ..

@[simp] lemma issueSeq_append (a b : List SOut) :
    issueSeq (a ++ b) = issueSeq a ++ issueSeq b := List.filterMap_append ..

@[simp] lemma settleSeq_append (a b : List SOut) :
    settleSeq (a ++ b) = settleSeq a ++ settleSeq b := List.filterMap_append ..

@[simp] lemma enqSeq_nil : enqSeq [] = [] := rfl

@[simp] lemma deqSeq_nil : deqSeq [] = [] := rfl

@[simp] lemma issueSeq_nil : issueSeq [] = [] := rfl

@[simp] lemma settleSeq_nil : settleSeq [] = [] := rfl

@[simp] lemma enqSeq_enq (r : Nat) : enqSeq [SOut.enqueued r] = [r] := rfl

@[simp] lemma enqSeq_deq (r : Nat) : enqSeq [SOut.dequeued r] = [] := rfl

@[simp] lemma enqSeq_iss (r : Nat) : enqSeq [SOut.issued r] = [] := rfl

@[simp] lemma enqSeq_rej (r : Nat) : enqSeq [SOut.rejected r] = [] := rfl

@[simp] lemma enqSeq_set (r : Nat) : enqSeq [SOut.settled r] = [] := rfl

@[simp] lemma deqSeq_enq (r : Nat) : deqSeq [SOut.enqueued r] = [] := rfl

@[simp] lemma deqSeq_deq (r : Nat) : deqSeq [SOut.dequeued r] = [r] := rfl

@[simp] lemma deqSeq_iss (r : Nat) : deqSeq [SOut.issued r] = [] := rfl

@[simp] lemma deqSeq_rej (r : Nat) : deqSeq [SOut.rejected r] = [] := rfl

@[simp] lemma deqSeq_set (r : Nat) : deqSeq [SOut.settled r] = [] := rfl

@[simp] lemma issueSeq_enq (r : Nat) : issueSeq [SOut.enqueued r] = [] := rfl

@[simp] lemma issueSeq_deq (r : Nat) : issueSeq [SOut.dequeued r] = [] := rfl

@[simp] lemma issueSeq_iss (r : Nat) : issueSeq [SOut.issued r] = [r] := rfl

@[simp] lemma issueSeq_rej (r : Nat) : issueSeq [SOut.rejected r] = [] := rfl

@[simp] lemma issueSeq_set (r : Nat) : issueSeq [SOut.settled r] = [] := rfl

@[simp] lemma settleSeq_enq (r : Nat) : settleSeq [SOut.enqueued r] = [] := rfl

@[simp] lemma settleSeq_deq (r : Nat) : settleSeq [SOut.dequeued r] = [] := rfl

@[simp] lemma settleSeq_iss (r : Nat) : settleSeq [SOut.issued r] = [] := rfl

@[simp] lemma settleSeq_rej (r : Nat) : settleSeq [SOut.rejected r] = [] := rfl

@[simp] lemma settleSeq_set (r : Nat) : settleSeq [SOut.settled r] = [r] := rfl

@[simp] lemma tokHeld_nil : tokHeld [] = [] := rfl

@[simp] lemma tokHeld_pacing : tokHeld [Phase.pacing] = [] := rfl

@[simp] lemma tokHeld_tokWait (r : Nat) : tokHeld [Phase.tokWait r] = [r] := rfl

@[simp] lemma tokHeld_fetchWait (r : Nat) : tokHeld [Phase.fetchWait r] = [] := rfl

@[simp] lemma tokHeld_post (r : Nat) : tokHeld [Phase.post r] = [] := rfl

@[simp] lemma fetchCount_nil : fetchCount [] = 0 := rfl

@[simp] lemma fetchCount_pacing : fetchCount [Phase.pacing] = 0 := rfl

@[simp] lemma fetchCount_tokWait (r : Nat) : fetchCount [Phase.tokWait r] = 0 := rfl

@[simp] lemma fetchCount_fetchWait (r : Nat) :
    fetchCount [Phase.fetchWait r] = 1 := rfl

@[simp] lemma fetchCount_post (r : Nat) : fetchCount [Phase.post r] = 0 := rfl

lemma fetchCount_le_length (l : List Phase) : fetchCount l ≤ l.length :=
  List.length_filterMap_le _ _

lemma tasks_singleton {l : List Phase} (hle : l.length ≤ 1) {i : Nat} {p : Phase}
    (hg : l[i]? = some p) : l = [p] ∧ i = 0 := by
  rcases l with _ | ⟨a, rest⟩
  · simp at hg
  · rcases rest with _ | ⟨b, rest2⟩
    · rcases i with _ | j
      · simp at hg
        exact ⟨by rw [hg], rfl⟩
      · simp at hg
    · simp only [List.length_cons] at hle
      omega

/-- Inductive invariant of the scheduler model over reinit-free runs:
at most one live activation; the flag is up exactly while one is; a
pacing activation implies a non-empty queue; the enqueued sequence is
the dequeued sequence followed by the pending queue (FIFO); the issued
sequence extended by the requests still awaiting a token is an
order-preserving subsequence of the dequeued sequence; and every issued
call is either settled or the one currently in flight. -/
structure SchedInv (s : Sched) (tr : List SOut) : Prop where
  tasksLe : s.tasks.length ≤ 1
  flagIff : s.flag = true ↔ s.tasks ≠ []
  pacingQueue : ∀ p ∈ s.tasks, p = Phase.pacing → s.queue ≠ []
  fifo : enqSeq tr = deqSeq tr ++ s.queue
  issueSub : List.Sublist (issueSeq tr ++ tokHeld s.tasks) (deqSeq tr)
  inflight : (issueSeq tr).length = (settleSeq tr).length + fetchCount s.tasks

lemma schedInv_init : SchedInv sInit [] := by
  refine ⟨by simp [sInit], by simp [sInit], ?_, by simp [sInit], by simp [sInit],
    by simp [sInit]⟩
  intro p hp
  simp [sInit] at hp

lemma schedInv_nil_trace (s : Sched) (tr : List SOut) (h : SchedInv s tr) :
    SchedInv s (tr ++ []) := by simpa using h

lemma schedInv_step (s : Sched) (tr : List SOut) (e : SEv) (hne : e ≠ SEv.reinit)
    (h : SchedInv s tr) : SchedInv (sStep s e).1 (tr ++ (sStep s e).2) := by
  cases e with
  | reinit => exact absurd rfl hne
  | enq r =>
    by_cases hf : s.flag = true
    · have hs : sStep s (SEv.enq r) =
          ({ s with queue := s.queue ++ [r] }, [SOut.enqueued r]) := by
        simp [sStep, hf]
      rw [hs]
      refine ⟨h.tasksLe, h.flagIff, ?_, ?_, ?_, ?_⟩
      · intro p hp hpp
        simp
      · simp [h.fifo]
      · simpa using h.issueSub
      · simpa using h.inflight
    · have hf0 : s.flag = false := by simpa using hf
      have htasks : s.tasks = [] := by
        by_contra hne2
        rw [h.flagIff.mpr hne2] at hf0
        simp at hf0
      have hs : sStep s (SEv.enq r) =
          ({ queue := s.queue ++ [r], flag := true, tasks := s.tasks ++ [Phase.pacing] },
           [SOut.enqueued r]) := by
        simp [sStep, hf0]
      rw [hs, htasks]
      refine ⟨by simp, by simp, ?_, ?_, ?_, ?_⟩
      · intro p hp hpp
        simp
      · simp [h.fifo]
      · have hi := h.issueSub
        rw [htasks] at hi
        simpa using hi
      · have hi := h.inflight
        rw [htasks] at hi
        simpa using hi
  | wake i =>
    rcases hg : s.tasks[i]? with _ | p
    · have hs : sStep s (SEv.wake i) = (s, []) := by simp [sStep, hg]
      rw [hs]
      exact schedInv_nil_trace s tr h
    · obtain ⟨htasks, hi0⟩ := tasks_singleton h.tasksLe hg
      subst hi0
      cases p with
      | pacing =>
        rcases hq : s.queue with _ | ⟨r, restQ⟩
        · exact absurd hq (h.pacingQueue Phase.pacing (by rw [htasks]; simp) rfl)
        · have hflag : s.flag = true := h.flagIff.mpr (by rw [htasks]; simp)
          have hs : sStep s (SEv.wake 0) =
              ({ s with
                  queue := restQ,
                  tasks := s.tasks.set 0 (Phase.tokWait r) }, [SOut.dequeued r]) := by
            simp [sStep, hg, hq]
          rw [hs, htasks]
          refine ⟨by simp, by simp [hflag], ?_, ?_, ?_, ?_⟩
          · intro p2 hp2 hpp
            simp [List.set_cons_zero] at hp2
            rw [hp2] at hpp
            simp at hpp
          · have hfifo := h.fifo
            rw [hq] at hfifo
            simp [hfifo]
          · have hi := h.issueSub
            rw [htasks] at hi
            simp only [tokHeld_pacing, List.append_nil] at hi
            simp only [List.set_cons_zero, tokHeld_tokWait, issueSeq_append,
              issueSeq_deq, List.append_nil, deqSeq_append, deqSeq_deq]
            exact List.Sublist.append hi (List.Sublist.refl [r])
          · have hi := h.inflight
            rw [htasks] at hi
            simpa [List.set_cons_zero] using hi
      | tokWait r =>
        have hs : sStep s (SEv.wake 0) = (s, []) := by simp [sStep, hg]
        rw [hs]
        exact schedInv_nil_trace s tr h
      | fetchWait r =>
        have hs : sStep s (SEv.wake 0) = (s, []) := by simp [sStep, hg]
        rw [hs]
        exact schedInv_nil_trace s tr h
      | post r =>
        have hs : sStep s (SEv.wake 0) = (s, []) := by simp [sStep, hg]
        rw [hs]
        exact schedInv_nil_trace s tr h
  | tokOk i =>
    rcases hg : s.tasks[i]? with _ | p
    · have hs : sStep s (SEv.tokOk i) = (s, []) := by simp [sStep, hg]
      rw [hs]
      exact schedInv_nil_trace s tr h
    · obtain ⟨htasks, hi0⟩ := tasks_singleton h.tasksLe hg
      subst hi0
      cases p with
      | pacing =>
        have hs : sStep s (SEv.tokOk 0) = (s, []) := by simp [sStep, hg]
        rw [hs]
        exact schedInv_nil_trace s tr h
      | tokWait r =>
        have hflag : s.flag = true := h.flagIff.mpr (by rw [htasks]; simp)
        have hs : sStep s (SEv.tokOk 0) =
            ({ s with tasks := s.tasks.set 0 (Phase.fetchWait r) },
             [SOut.issued r]) := by
          simp [sStep, hg]
        rw [hs, htasks]
        refine ⟨by simp, by simp [hflag], ?_, ?_, ?_, ?_⟩
        · intro p2 hp2 hpp
          simp [List.set_cons_zero] at hp2
          rw [hp2] at hpp
          simp at hpp
        · simpa using h.fifo
        · have hi := h.issueSub
          rw [htasks] at hi
          simpa [List.set_cons_zero] using hi
        · have hi := h.inflight
          rw [htasks] at hi
          simp only [fetchCount_tokWait, Nat.add_zero] at hi
          simp only [List.set_cons_zero, fetchCount_fetchWait, issueSeq_append,
            issueSeq_iss, settleSeq_append, settleSeq_iss, List.append_nil,
            List.length_append, List.length_cons, List.length_nil]
          omega
      | fetchWait r =>
        have hs : sStep s (SEv.tokOk 0) = (s, []) := by simp [sStep, hg]
        rw [hs]
        exact schedInv_nil_trace s tr h
      | post r =>
        have hs : sStep s (SEv.tokOk 0) = (s, []) := by simp [sStep, hg]
        rw [hs]
        exact schedInv_nil_trace s tr h
  | tokFail i =>
    rcases hg : s.tasks[i]? with _ | p
    · have hs : sStep s (SEv.tokFail i) = (s, []) := by simp [sStep, hg]
      rw [hs]
      exact schedInv_nil_trace s tr h
    · obtain ⟨htasks, hi0⟩ := tasks_singleton h.tasksLe hg
      subst hi0
      cases p with
      | pacing =>
        have hs : sStep s (SEv.tokFail 0) = (s, []) := by simp [sStep, hg]
        rw [hs]
        exact schedInv_nil_trace s tr h
      | tokWait r =>
        rcases hq : s.queue with _ | ⟨r2, restQ⟩
        · have hs : sStep s (SEv.tokFail 0) =
              ({ s with tasks := s.tasks.eraseIdx 0, flag := false },
               [SOut.rejected r]) := by
            simp [sStep, hg, hq]
          rw [hs, htasks]
          refine ⟨by simp [List.eraseIdx], by simp [List.eraseIdx], ?_, ?_, ?_, ?_⟩
          · intro p2 hp2 hpp
            simp [List.eraseIdx] at hp2
          · have hfifo := h.fifo
            rw [hq] at hfifo
            simpa [hq] using hfifo
          · have hi := h.issueSub
            rw [htasks] at hi
            simp only [tokHeld_tokWait] at hi
            simp only [List.eraseIdx, tokHeld_nil, issueSeq_append, issueSeq_rej,
              List.append_nil, deqSeq_append, deqSeq_rej]
            exact (List.sublist_append_left _ _).trans hi
          · have hi := h.inflight
            rw [htasks] at hi
            simpa [List.eraseIdx] using hi
        · have hflag : s.flag = true := h.flagIff.mpr (by rw [htasks]; simp)
          have hs : sStep s (SEv.tokFail 0) =
              ({ s with tasks := s.tasks.set 0 Phase.pacing },
               [SOut.rejected r]) := by
            simp [sStep, hg, hq]
          rw [hs, htasks]
          refine ⟨by simp, by simp [hflag], ?_, ?_, ?_, ?_⟩
          · intro p2 hp2 hpp
            rw [hq]
            simp
          · simpa using h.fifo
          · have hi := h.issueSub
            rw [htasks] at hi
            simp only [tokHeld_tokWait] at hi
            simp only [List.set_cons_zero, tokHeld_pacing, issueSeq_append,
              issueSeq_rej, List.append_nil, deqSeq_append, deqSeq_rej]
            exact (List.sublist_append_left _ _).trans hi
          · have hi := h.inflight
            rw [htasks] at hi
            simpa [List.set_cons_zero] using hi
      | fetchWait r =>
        have hs : sStep s (SEv.tokFail 0) = (s, []) := by simp [sStep, hg]
        rw [hs]
        exact schedInv_nil_trace s tr h
      | post r =>
        have hs : sStep s (SEv.tokFail 0) = (s, []) := by simp [sStep, hg]
        rw [hs]
        exact schedInv_nil_trace s tr h
  | fetchDone i =>
    rcases hg : s.tasks[i]? with _ | p
    · have hs : sStep s (SEv.fetchDone i) = (s, []) := by simp [sStep, hg]
      rw [hs]
      exact schedInv_nil_trace s tr h
    · obtain ⟨htasks, hi0⟩ := tasks_singleton h.tasksLe hg
      subst hi0
      cases p with
      | pacing =>
        have hs : sStep s (SEv.fetchDone 0) = (s, []) := by simp [sStep, hg]
        rw [hs]
        exact schedInv_nil_trace s tr h
      | tokWait r =>
        have hs : sStep s (SEv.fetchDone 0) = (s, []) := by simp [sStep, hg]
        rw [hs]
        exact schedInv_nil_trace s tr h
      | fetchWait r =>
        have hflag : s.flag = true := h.flagIff.mpr (by rw [htasks]; simp)
        have hs : sStep s (SEv.fetchDone 0) =
            ({ s with tasks := s.tasks.set 0 (Phase.post r) },
             [SOut.settled r]) := by
          simp [sStep, hg]
        rw [hs, htasks]
        refine ⟨by simp, by simp [hflag], ?_, ?_, ?_, ?_⟩
        · intro p2 hp2 hpp
          simp [List.set_cons_zero] at hp2
          rw [hp2] at hpp
          simp at hpp
        · simpa using h.fifo
        · have hi := h.issueSub
          rw [htasks] at hi
          simpa [List.set_cons_zero] using hi
        · have hi := h.inflight
          rw [htasks] at hi
          simp only [fetchCount_fetchWait] at hi
          simp only [List.set_cons_zero, fetchCount_post, issueSeq_append,
            issueSeq_set, settleSeq_append, settleSeq_set, List.append_nil,
            List.length_append, List.length_cons, List.length_nil]
          omega
      | post r =>
        have hs : sStep s (SEv.fetchDone 0) = (s, []) := by simp [sStep, hg]
        rw [hs]
        exact schedInv_nil_trace s tr h
  | next i =>
    rcases hg : s.tasks[i]? with _ | p
    · have hs : sStep s (SEv.next i) = (s, []) := by simp [sStep, hg]
      rw [hs]
      exact schedInv_nil_trace s tr h
    · obtain ⟨htasks, hi0⟩ := tasks_singleton h.tasksLe hg
      subst hi0
      cases p with
      | pacing =>
        have hs : sStep s (SEv.next 0) = (s, []) := by simp [sStep, hg]
        rw [hs]
        exact schedInv_nil_trace s tr h
      | tokWait r =>
        have hs : sStep s (SEv.next 0) = (s, []) := by simp [sStep, hg]
        rw [hs]
        exact schedInv_nil_trace s tr h
      | fetchWait r =>
        have hs : sStep s (SEv.next 0) = (s, []) := by simp [sStep, hg]
        rw [hs]
        exact schedInv_nil_trace s tr h
      | post r =>
        rcases hq : s.queue with _ | ⟨r2, restQ⟩
        · have hs : sStep s (SEv.next 0) =
              ({ s with tasks := s.tasks.eraseIdx 0, flag := false }, []) := by
            simp [sStep, hg, hq]
          rw [hs, htasks]
          refine ⟨by simp [List.eraseIdx], by simp [List.eraseIdx], ?_, ?_, ?_, ?_⟩
          · intro p2 hp2 hpp
            simp [List.eraseIdx] at hp2
          · have hfifo := h.fifo
            rw [hq] at hfifo
            simpa [hq] using hfifo
          · have hi := h.issueSub
            rw [htasks] at hi
            simpa [List.eraseIdx] using hi
          · have hi := h.inflight
            rw [htasks] at hi
            simpa [List.eraseIdx] using hi
        · have hflag : s.flag = true := h.flagIff.mpr (by rw [htasks]; simp)
          have hs : sStep s (SEv.next 0) =
              ({ s with tasks := s.tasks.set 0 Phase.pacing }, []) := by
            simp [sStep, hg, hq]
          rw [hs, htasks]
          refine ⟨by simp, by simp [hflag], ?_, ?_, ?_, ?_⟩
          · intro p2 hp2 hpp
            rw [hq]
            simp
          · simpa using h.fifo
          · have hi := h.issueSub
            rw [htasks] at hi
            simpa [List.set_cons_zero] using hi
          · have hi := h.inflight
            rw [htasks] at hi
            simpa [List.set_cons_zero] using hi

lemma schedInv_run (evts : List SEv) : ∀ (s : Sched) (tr : List SOut),
    SEv.reinit ∉ evts → SchedInv s tr →
    SchedInv (sRun s evts).1 (tr ++ (sRun s evts).2) := by
  induction evts with
  | nil =>
    intro s tr _ h
    simpa [sRun] using h
  | cons e rest ih =>
    intro s tr hnr h
    have hne : e ≠ SEv.reinit := by
      intro he
      exact hnr (by rw [he]; exact List.mem_cons_self _ _)
    have hnr2 : SEv.reinit ∉ rest := fun hm => hnr (List.mem_cons_of_mem _ hm)
    have h1 := schedInv_step s tr e hne h
    have h2 := ih (sStep s e).1 (tr ++ (sStep s e).2) hnr2 h1
    simpa [sRun, List.append_assoc] using h2

/-- C4 counterexample: a queued item whose token lookup throws is
rejected with zero provider HTTP calls, so "each queued item causes
exactly one HTTP call" fails.  The run still drains cleanly: empty
queue, flag down, no activation left. -/
theorem queued_item_zero_provider_calls :
    sRun sInit [.enq 7, .wake 0, .tokFail 0] =
        (⟨[], false, []⟩, [SOut.enqueued 7, SOut.dequeued 7, SOut.rejected 7]) ∧
      (issueSeq (sRun sInit [.enq 7, .wake 0, .tokFail 0]).2).count 7 = 0 := by
  decide

/-- C4 (amended): over every event sequence free of `reinitialize`, the
`isProcessingQueue` discipline keeps at most one `processQueue`
activation alive (the drain loop is never active twice, and the flag is
up exactly while one runs); the enqueued sequence is the dequeued
sequence followed by the still-pending queue (strict FIFO dequeue);
provider calls are issued in dequeue order (the issued sequence is an
order-preserving subsequence of the dequeued one); at most one provider
call is in flight at any time (issued calls exceed settled ones by at
most one); and each queued item causes at most one provider call —
zero when its token lookup fails. -/
theorem scheduler_fifo_single_drain (evts : List SEv) (hnr : SEv.reinit ∉ evts) :
    (sRun sInit evts).1.tasks.length ≤ 1 ∧
    ((sRun sInit evts).1.flag = true ↔ (sRun sInit evts).1.tasks ≠ []) ∧
    enqSeq (sRun sInit evts).2 =
        deqSeq (sRun sInit evts).2 ++ (sRun sInit evts).1.queue ∧
    List.Sublist (issueSeq (sRun sInit evts).2) (deqSeq (sRun sInit evts).2) ∧
    (settleSeq (sRun sInit evts).2).length ≤ (issueSeq (sRun sInit evts).2).length ∧
    (issueSeq (sRun sInit evts).2).length ≤
        (settleSeq (sRun sInit evts).2).length + 1 ∧
    (∀ r, (issueSeq (sRun sInit evts).2).count r ≤
        (enqSeq (sRun sInit evts).2).count r) := by
  have h := schedInv_run evts sInit [] hnr schedInv_init
  rw [List.nil_append] at h
  have hsub : List.Sublist (issueSeq (sRun sInit evts).2)
      (deqSeq (sRun sInit evts).2) :=
    (List.sublist_append_left _ _).trans h.issueSub
  have hfc : fetchCount (sRun sInit evts).1.tasks ≤ 1 :=
    le_trans (fetchCount_le_length _) h.tasksLe
  have hinf := h.inflight
  refine ⟨h.tasksLe, h.flagIff, h.fifo, hsub, by omega, by omega, ?_⟩
  intro r
  have h2 : (deqSeq (sRun sInit evts).2).count r ≤
      (enqSeq (sRun sInit evts).2).count r := by
    rw [h.fifo, List.count_append]
    omega
  exact le_trans (hsub.count_le r) h2

/-- A concrete reinit-free interleaving: a second and third request
arrive while the first is being processed. -/
def evtsA : List SEv :=
  [.enq 1, .wake 0, .enq 2, .tokOk 0, .enq 3, .fetchDone 0, .next 0,
   .wake 0, .tokOk 0, .fetchDone 0, .next 0]

/-- Witness for `scheduler_fifo_single_drain` at the concrete
interleaving `evtsA`. -/
theorem scheduler_fifo_single_drain_witness :
    (sRun sInit evtsA).1.tasks.length ≤ 1 ∧
    ((sRun sInit evtsA).1.flag = true ↔ (sRun sInit evtsA).1.tasks ≠ []) ∧
    enqSeq (sRun sInit evtsA).2 =
        deqSeq (sRun sInit evtsA).2 ++ (sRun sInit evtsA).1.queue ∧
    List.Sublist (issueSeq (sRun sInit evtsA).2) (deqSeq (sRun sInit evtsA).2) ∧
    (settleSeq (sRun sInit evtsA).2).length ≤ (issueSeq (sRun sInit evtsA).2).length ∧
    (issueSeq (sRun sInit evtsA).2).length ≤
        (settleSeq (sRun sInit evtsA).2).length + 1 ∧
    (∀ r, (issueSeq (sRun sInit evtsA).2).count r ≤
        (enqSeq (sRun sInit evtsA).2).count r) :=
  scheduler_fifo_single_drain evtsA (by decide)

/-- Outputs that concern request `r`: its dequeue, issue, rejection or
settlement (`enqueued` is the caller's own push and excluded). -/
def concernsReq (r : Nat) : SOut → Bool
  | .enqueued _ => false
  | .dequeued r2 => r == r2
  | .issued r2 => r == r2
  | .rejected r2 => r == r2
  | .settled r2 => r == r2

@[simp] lemma taskReqs_nil : taskReqs [] = [] := rfl

@[simp] lemma taskReqs_pacing : taskReqs [Phase.pacing] = [] := rfl

@[simp] lemma taskReqs_tokWait (r : Nat) : taskReqs [Phase.tokWait r] = [r] := rfl

@[simp] lemma taskReqs_fetchWait (r : Nat) :
    taskReqs [Phase.fetchWait r] = [r] := rfl

@[simp] lemma taskReqs_post (r : Nat) : taskReqs [Phase.post r] = [r] := rfl

lemma not_mem_taskReqs_set (r : Nat) (l : List Phase) (i : Nat) (p : Phase)
    (hl : r ∉ taskReqs l) (hp : r ∉ taskReqs [p]) : r ∉ taskReqs (l.set i p) := by
  intro hmem
  rcases List.mem_filterMap.1 hmem with ⟨a, ha, hfa⟩
  rcases List.mem_or_eq_of_mem_set ha with ha2 | rfl
  · exact hl (List.mem_filterMap.2 ⟨a, ha2, hfa⟩)
  · exact hp (List.mem_filterMap.2 ⟨a, by simp, hfa⟩)

lemma not_mem_taskReqs_eraseIdx (r : Nat) (l : List Phase) (i : Nat)
    (hl : r ∉ taskReqs l) : r ∉ taskReqs (l.eraseIdx i) := by
  intro hmem
  rcases List.mem_filterMap.1 hmem with ⟨a, ha, hfa⟩
  exact hl (List.mem_filterMap.2 ⟨a, (List.eraseIdx_sublist l i).subset ha, hfa⟩)

lemma not_mem_taskReqs_append (r : Nat) (l1 l2 : List Phase)
    (h1 : r ∉ taskReqs l1) (h2 : r ∉ taskReqs l2) :
    r ∉ taskReqs (l1 ++ l2) := by
  intro hmem
  rcases List.mem_filterMap.1 hmem with ⟨a, ha, hfa⟩
  rcases List.mem_append.1 ha with ha2 | ha2
  · exact h1 (List.mem_filterMap.2 ⟨a, ha2, hfa⟩)
  · exact h2 (List.mem_filterMap.2 ⟨a, ha2, hfa⟩)

lemma sStep_no_reach (r : Nat) (s : Sched) (e : SEv) (hq : r ∉ s.queue)
    (ht : r ∉ taskReqs s.tasks) (he : e ≠ SEv.enq r) :
    r ∉ (sStep s e).1.queue ∧ r ∉ taskReqs (sStep s e).1.tasks ∧
      ∀ o ∈ (sStep s e).2, concernsReq r o = false := by
  cases e with
  | enq r2 =>
    have hr2 : ¬ r = r2 := fun hEq => he (by rw [hEq])
    by_cases hf : s.flag = true
    · have hs : sStep s (SEv.enq r2) =
          ({ s with queue := s.queue ++ [r2] }, [SOut.enqueued r2]) := by
        simp [sStep, hf]
      rw [hs]
      refine ⟨by simp [hq, hr2], ht, ?_⟩
      intro o ho
      simp at ho
      rw [ho]
      rfl
    · have hf0 : s.flag = false := by simpa using hf
      have hs : sStep s (SEv.enq r2) =
          ({ queue := s.queue ++ [r2], flag := true,
             tasks := s.tasks ++ [Phase.pacing] }, [SOut.enqueued r2]) := by
        simp [sStep, hf0]
      rw [hs]
      refine ⟨by simp [hq, hr2], not_mem_taskReqs_append r _ _ ht (by simp), ?_⟩
      intro o ho
      simp at ho
      rw [ho]
      rfl
  | wake i =>
    rcases hg : s.tasks[i]? with _ | p
    · have hs : sStep s (SEv.wake i) = (s, []) := by simp [sStep, hg]
      rw [hs]
      exact ⟨hq, ht, by simp⟩
    · cases p with
      | pacing =>
        rcases hqq : s.queue with _ | ⟨r2, restQ⟩
        · have hs : sStep s (SEv.wake i) =
              ({ s with tasks := s.tasks.eraseIdx i }, []) := by
            simp [sStep, hg, hqq]
          rw [hs]
          exact ⟨hq, not_mem_taskReqs_eraseIdx r _ i ht, by simp⟩
        · rw [hqq] at hq
          simp at hq
          have hs : sStep s (SEv.wake i) =
              ({ s with
                  queue := restQ,
                  tasks := s.tasks.set i (Phase.tokWait r2) },
               [SOut.dequeued r2]) := by
            simp [sStep, hg, hqq]
          rw [hs]
          refine ⟨hq.2, not_mem_taskReqs_set r _ i _ ht (by simp [hq.1]), ?_⟩
          intro o ho
          simp at ho
          rw [ho]
          simp [concernsReq, hq.1]
      | tokWait r2 =>
        have hs : sStep s (SEv.wake i) = (s, []) := by simp [sStep, hg]
        rw [hs]
        exact ⟨hq, ht, by simp⟩
      | fetchWait r2 =>
        have hs : sStep s (SEv.wake i) = (s, []) := by simp [sStep, hg]
        rw [hs]
        exact ⟨hq, ht, by simp⟩
      | post r2 =>
        have hs : sStep s (SEv.wake i) = (s, []) := by simp [sStep, hg]
        rw [hs]
        exact ⟨hq, ht, by simp⟩
  | tokOk i =>
    rcases hg : s.tasks[i]? with _ | p
    · have hs : sStep s (SEv.tokOk i) = (s, []) := by simp [sStep, hg]
      rw [hs]
      exact ⟨hq, ht, by simp⟩
    · cases p with
      | tokWait r2 =>
        have hmemr2 : r2 ∈ taskReqs s.tasks :=
          List.mem_filterMap.2 ⟨Phase.tokWait r2, List.getElem?_mem hg, rfl⟩
        have hr2 : ¬ r = r2 := fun hEq => ht (hEq ▸ hmemr2)
        have hs : sStep s (SEv.tokOk i) =
            ({ s with tasks := s.tasks.set i (Phase.fetchWait r2) },
             [SOut.issued r2]) := by
          simp [sStep, hg]
        rw [hs]
        refine ⟨hq, not_mem_taskReqs_set r _ i _ ht (by simp [hr2]), ?_⟩
        intro o ho
        simp at ho
        rw [ho]
        simp [concernsReq, hr2]
      | pacing =>
        have hs : sStep s (SEv.tokOk i) = (s, []) := by simp [sStep, hg]
        rw [hs]
        exact ⟨hq, ht, by simp⟩
      | fetchWait r2 =>
        have hs : sStep s (SEv.tokOk i) = (s, []) := by simp [sStep, hg]
        rw [hs]
        exact ⟨hq, ht, by simp⟩
      | post r2 =>
        have hs : sStep s (SEv.tokOk i) = (s, []) := by simp [sStep, hg]
        rw [hs]
        exact ⟨hq, ht, by simp⟩
  | tokFail i =>
    rcases hg : s.tasks[i]? with _ | p
    · have hs : sStep s (SEv.tokFail i) = (s, []) := by simp [sStep, hg]
      rw [hs]
      exact ⟨hq, ht, by simp⟩
    · cases p with
      | tokWait r2 =>
        have hmemr2 : r2 ∈ taskReqs s.tasks :=
          List.mem_filterMap.2 ⟨Phase.tokWait r2, List.getElem?_mem hg, rfl⟩
        have hr2 : ¬ r = r2 := fun hEq => ht (hEq ▸ hmemr2)
        rcases hqq : s.queue with _ | ⟨r3, restQ⟩
        · have hs : sStep s (SEv.tokFail i) =
              ({ s with tasks := s.tasks.eraseIdx i, flag := false },
               [SOut.rejected r2]) := by
            simp [sStep, hg, hqq]
          rw [hs]
          refine ⟨hq, not_mem_taskReqs_eraseIdx r _ i ht, ?_⟩
          intro o ho
          simp at ho
          rw [ho]
          simp [concernsReq, hr2]
        · have hs : sStep s (SEv.tokFail i) =
              ({ s with tasks := s.tasks.set i Phase.pacing },
               [SOut.rejected r2]) := by
            simp [sStep, hg, hqq]
          rw [hs]
          refine ⟨hq, not_mem_taskReqs_set r _ i _ ht (by simp), ?_⟩
          intro o ho
          simp at ho
          rw [ho]
          simp [concernsReq, hr2]
      | pacing =>
        have hs : sStep s (SEv.tokFail i) = (s, []) := by simp [sStep, hg]
        rw [hs]
        exact ⟨hq, ht, by simp⟩
      | fetchWait r2 =>
        have hs : sStep s (SEv.tokFail i) = (s, []) := by simp [sStep, hg]
        rw [hs]
        exact ⟨hq, ht, by simp⟩
      | post r2 =>
        have hs : sStep s (SEv.tokFail i) = (s, []) := by simp [sStep, hg]
        rw [hs]
        exact ⟨hq, ht, by simp⟩
  | fetchDone i =>
    rcases hg : s.tasks[i]? with _ | p
    · have hs : sStep s (SEv.fetchDone i) = (s, []) := by simp [sStep, hg]
      rw [hs]
      exact ⟨hq, ht, by simp⟩
    · cases p with
      | fetchWait r2 =>
        have hmemr2 : r2 ∈ taskReqs s.tasks :=
          List.mem_filterMap.2 ⟨Phase.fetchWait r2, List.getElem?_mem hg, rfl⟩
        have hr2 : ¬ r = r2 := fun hEq => ht (hEq ▸ hmemr2)
        have hs : sStep s (SEv.fetchDone i) =
            ({ s with tasks := s.tasks.set i (Phase.post r2) },
             [SOut.settled r2]) := by
          simp [sStep, hg]
        rw [hs]
        refine ⟨hq, not_mem_taskReqs_set r _ i _ ht (by simp [hr2]), ?_⟩
        intro o ho
        simp at ho
        rw [ho]
        simp [concernsReq, hr2]
      | pacing =>
        have hs : sStep s (SEv.fetchDone i) = (s, []) := by simp [sStep, hg]
        rw [hs]
        exact ⟨hq, ht, by simp⟩
      | tokWait r2 =>
        have hs : sStep s (SEv.fetchDone i) = (s, []) := by simp [sStep, hg]
        rw [hs]
        exact ⟨hq, ht, by simp⟩
      | post r2 =>
        have hs : sStep s (SEv.fetchDone i) = (s, []) := by simp [sStep, hg]
        rw [hs]
        exact ⟨hq, ht, by simp⟩
  | next i =>
    rcases hg : s.tasks[i]? with _ | p
    · have hs : sStep s (SEv.next i) = (s, []) := by simp [sStep, hg]
      rw [hs]
      exact ⟨hq, ht, by simp⟩
    · cases p with
      | post r2 =>
        rcases hqq : s.queue with _ | ⟨r3, restQ⟩
        · have hs : sStep s (SEv.next i) =
              ({ s with tasks := s.tasks.eraseIdx i, flag := false }, []) := by
            simp [sStep, hg, hqq]
          rw [hs]
          exact ⟨hq, not_mem_taskReqs_eraseIdx r _ i ht, by simp⟩
        · have hs : sStep s (SEv.next i) =
              ({ s with tasks := s.tasks.set i Phase.pacing }, []) := by
            simp [sStep, hg, hqq]
          rw [hs]
          exact ⟨hq, not_mem_taskReqs_set r _ i _ ht (by simp), by simp⟩
      | pacing =>
        have hs : sStep s (SEv.next i) = (s, []) := by simp [sStep, hg]
        rw [hs]
        exact ⟨hq, ht, by simp⟩
      | tokWait r2 =>
        have hs : sStep s (SEv.next i) = (s, []) := by simp [sStep, hg]
        rw [hs]
        exact ⟨hq, ht, by simp⟩
      | fetchWait r2 =>
        have hs : sStep s (SEv.next i) = (s, []) := by simp [sStep, hg]
        rw [hs]
        exact ⟨hq, ht, by simp⟩
  | reinit =>
    have hs : sStep s SEv.reinit = ({ s with queue := [], flag := false }, []) := by
      simp [sStep]
    rw [hs]
    exact ⟨by simp, ht, by simp⟩

lemma sRun_no_reach (r : Nat) (evts : List SEv) : ∀ (s : Sched), r ∉ s.queue →
    r ∉ taskReqs s.tasks → (∀ e ∈ evts, e ≠ SEv.enq r) →
    ∀ o ∈ (sRun s evts).2, concernsReq r o = false := by
  induction evts with
  | nil =>
    intro s _ _ _ o ho
    simp [sRun] at ho
  | cons e rest ih =>
    intro s hq ht hno o ho
    have he : e ≠ SEv.enq r := hno e (List.mem_cons_self _ _)
    have hstep := sStep_no_reach r s e hq ht he
    have hrest := ih (sStep s e).1 hstep.1 hstep.2.1
      (fun e2 he2 => hno e2 (List.mem_cons_of_mem _ he2))
    simp only [sRun, List.mem_append] at ho
    rcases ho with ho1 | ho2
    · exact hstep.2.2 o ho1
    · exact hrest o ho2

/-- C9: a request still sitting in `requestQueue` when `reinitialize`
runs — and not also held by a live drain activation, nor re-enqueued
afterwards — is dropped without settlement: no later event dequeues,
issues, rejects or resolves it, so the caller awaiting its
`makeRequest` promise never observes an outcome. -/
theorem reinit_drops_queued_requests (r : Nat) (s : Sched) (evts : List SEv)
    (hq : r ∈ s.queue) (ht : r ∉ taskReqs s.tasks)
    (hnoenq : ∀ e ∈ evts, e ≠ SEv.enq r) :
    ∀ o ∈ (sRun (sStep s SEv.reinit).1 evts).2, concernsReq r o = false := by
  refine sRun_no_reach r evts (sStep s SEv.reinit).1 ?_ ?_ hnoenq
  · simp [sStep]
  · simpa [sStep] using ht

/-- Witness for `reinit_drops_queued_requests`: request 3 is queued when
the reinitialize hits, the held request 5 and a later request 8 still
run to completion, and no output ever concerns request 3. -/
theorem reinit_drops_queued_requests_witness :
    ((sRun (sStep ⟨[3], true, [Phase.post 5]⟩ SEv.reinit).1
        [.enq 8, .next 0, .wake 0, .tokOk 0, .fetchDone 0, .next 0]).2).all
      (fun o => !(concernsReq 3 o)) = true := by
  have h := reinit_drops_queued_requests 3 ⟨[3], true, [Phase.post 5]⟩
    [.enq 8, .next 0, .wake 0, .tokOk 0, .fetchDone 0, .next 0]
    (by decide) (by decide) (by decide)
  rw [List.all_eq_true]
  intro o ho
  rw [h o ho]
  rfl

end Scatalog
